import Mathlib

/-!
Verification of the documentation-comment reformatter of the `gir` code
generator (`src/codegen/doc/format.rs`).

The file shallowly embeds the Rust source: each Rust function becomes a Lean
function of the same name (in `camelCase`), regular expressions become
hand-written matchers with the regex crate's leftmost-first semantics, and the
`Env` / analysis / symbol-table collaborators (which live elsewhere in the
repository) are modelled from the specification.  All recursion is structural
(fuel bounded by the input length) so every definition evaluates inside the
kernel.
-/

namespace Gir

/-- Diagnostics emitted through the logging side channel (`info!` / `warn!`
calls in the source), abstracted to their call site and payload. -/
inductive Diag where
  /-- `info!("Function not found, falling back to symbol name `{}`", name)` -/
  | infoFnFallback (name : String)
  /-- `warn!("Function not found found: `{}`", name)` in `find_function` -/
  | warnFnNotFound (name : String)
  /-- `info!("Symbol not found: `{}`", symbol_name)` in `replace_c_types` -/
  | infoSymbolNotFound (name : String)
  /-- `warn!("Method `{}` of type `{}` was not found", method, type_)` -/
  | warnMethodNotFound (method ty : String)
  /-- `warn!("Constant/Flag variant/Enum member `{}` was not found", symbol)` -/
  | warnConstNotFound (name : String)
  /-- `warn!("Object/Interface/Record not found: `{}`", type_)` -/
  | warnTypeNotFound (name : String)
  /-- `warn!("`{}` should be a type (`#`) but was parsed as constant or variant (`%`)", type_)` -/
  | warnClassMismatch (name : String)
  deriving Repr, DecidableEq

/-- Severity of a diagnostic: `true` for `warn!`, `false` for `info!`. -/
def Diag.isWarning : Diag → Bool
  | .infoFnFallback _ => false
  | .infoSymbolNotFound _ => false
  | _ => true

/-- Modelled from the spec: a function entry of the Symbol Index
(`FnInfo` / `Info` of the analysis module, which is not part of this source
file).  `glib_name` is the C-level identifier used as join key; `declaring`
is `some t` when the function is actually declared on a distinct ancestor or
interface type `t` (polymorphic dispatch), `none` when it is declared on the
receiver itself. -/
structure FnInfo where
  name : String
  glib_name : String
  declaring : Option String
  deriving Repr, DecidableEq

/-- Modelled from the spec: an object or record type of the Symbol Index
(analysis `object::Info` / `record::Info`, not part of this source file). -/
structure TypeInfo where
  name : String
  full_name : String
  c_type : String
  type_id : Nat
  functions : List FnInfo
  deriving Repr, DecidableEq

/-- Modelled from the spec: an enum or flag member (library `Member`, not part
of this source file); `ignored` models `m.status.ignored()`. -/
structure Member where
  name : String
  c_identifier : String
  ignored : Bool
  deriving Repr, DecidableEq

/-- Modelled from the spec: an enumeration or flags type of the Symbol Index,
with its C type name and member table (not part of this source file). -/
structure EnumFlagInfo where
  c_type : String
  type_id : Nat
  members : List Member
  deriving Repr, DecidableEq

/-- Modelled from the spec: a global constant entry (`constants` table of the
analysis, not part of this source file). -/
structure ConstInfo where
  glib_name : String
  name : String
  deriving Repr, DecidableEq

/-- Modelled from the spec: the pre-built, read-only Symbol Index handed to
the translation pass (`Env` with its `analysis` and `symbols` tables, which
are not part of this source file).  `symbols` maps a `type_id` to the
symbol's `full_rust_name()`. -/
structure Env where
  objects : List TypeInfo
  records : List TypeInfo
  enumerations : List EnumFlagInfo
  flags : List EnumFlagInfo
  constants : List ConstInfo
  globalFunctions : List FnInfo
  symbols : List (Nat × String)
  deriving Repr, DecidableEq

/-- The empty Symbol Index. -/
def emptyEnv : Env := ⟨[], [], [], [], [], [], []⟩

/-- Modelled from the spec: `env.symbols.borrow().by_tid(tid)` (not part of
this source file) — lookup of a symbol's full rust name by type id. -/
def Env.byTid (env : Env) (tid : Nat) : Option String :=
  (env.symbols.find? (fun p => p.1 == tid)).map (·.2)

/-- Modelled from the spec: `obj_info.generate_doc_link_info(fn_info)` (not
part of this source file).  Per the spec, when the matching function is
defined on a different type than the one queried (interface or ancestor) the
link must reflect the declaring type, not the receiver; it returns the pair
`(type_name, visible_type_name)`. -/
def generateDocLinkInfo (o : TypeInfo) (f : FnInfo) : String × String :=
  match f.declaring with
  | some d => (d, d)
  | none => (o.name, o.name)

/-- Modelled from the spec: `fn_info.doc_link(name, visible_type_name)` of
the Link Formatter collaborator (not part of this source file): produces the
cross-reference markup for a function, with an optional owning type and an
optional visible-name override. -/
def FnInfo.docLink (f : FnInfo) (name : Option String) (visible : Option String) : String :=
  match name with
  | some n => "[`" ++ (visible.getD n) ++ "::" ++ f.name ++ "`][crate::" ++ n ++ "::" ++ f.name ++ "]"
  | none => "[`" ++ f.name ++ "`][crate::" ++ f.name ++ "]"

/-- Modelled from the spec: `nameutil::bitfield_member_name` (not part of this
source file); members are stored here under their target-language name, so the
conversion is the identity. -/
def bitfieldMemberName (s : String) : String := s

/-- Modelled from the spec: `nameutil::enum_member_name` (not part of this
source file); identity, as for `bitfieldMemberName`. -/
def enumMemberName (s : String) : String := s

/-- Modelled from the spec: `env.analysis.find_object_by_function(env, op, fp)`
(not part of this source file) — per the spec, searches each known object
type's methods in order and returns the first object satisfying `op` that has
a function satisfying `fp`, paired with that function. -/
def findObjectByFunction (env : Env) (op : TypeInfo → Bool) (fp : FnInfo → Bool) :
    Option (TypeInfo × FnInfo) :=
  env.objects.findSome? fun o =>
    if op o then (o.functions.find? fp).map (fun f => (o, f)) else none

/-- Modelled from the spec: `env.analysis.find_record_by_function` (not part
of this source file), analogous to `findObjectByFunction` over record types. -/
def findRecordByFunction (env : Env) (rp : TypeInfo → Bool) (fp : FnInfo → Bool) :
    Option (TypeInfo × FnInfo) :=
  env.records.findSome? fun r =>
    if rp r then (r.functions.find? fp).map (fun f => (r, f)) else none

/-- Modelled from the spec: `env.analysis.find_global_function` (not part of
this source file) — first global function satisfying the predicate. -/
def findGlobalFunction (env : Env) (fp : FnInfo → Bool) : Option FnInfo :=
  env.globalFunctions.find? fp

/-! ### String utilities

The Rust source manipulates `&str` via `str::find`, slicing and
`str::replace`; here text is a `List Char`. -/

/-- `try_split(src, needle)`: split `src` at the first occurrence of `needle`,
returning the part before it and (when found) the part after it; when not
found the whole of `src` is returned with `none` (source lines 16–21). -/
def trySplit (src needle : List Char) : List Char × Option (List Char) :=
  if needle.isPrefixOf src then ([], some (src.drop needle.length))
  else
    match src with
    | [] => ([], none)
    | c :: cs =>
      match trySplit cs needle with
      | (b, some a) => (c :: b, some a)
      | (_, none) => (c :: cs, none)

/-- `str::replace(pat, rep)` of the Rust standard library, for a non-empty
pattern: replace every non-overlapping occurrence left to right.  The fuel is
the input length, which suffices because each step consumes at least one
character. -/
def replaceListAux (pat rep : List Char) : Nat → List Char → List Char
  | 0, s => s
  | _ + 1, [] => []
  | fuel + 1, c :: cs =>
    if pat ≠ [] ∧ pat.isPrefixOf (c :: cs) then
      rep ++ replaceListAux pat rep fuel ((c :: cs).drop pat.length)
    else
      c :: replaceListAux pat rep fuel cs

/-- `String.replace` as used by the source (`sym.full_rust_name().replace(..)`). -/
def replaceStr (s pat rep : String) : String :=
  ⟨replaceListAux pat.data rep.data s.data.length s.data⟩

/-! ### Character classes of the regular expressions -/

/-- The backtick character (written via its code point). -/
def btick : Char := '\x60'

/-- `\w` of the regex crate, restricted to ASCII as used by the docs. -/
def isWordChar (c : Char) : Bool := c.isAlphanum || c == '_'

/-- The class `[a-z0-9_]` of the `FUNCTION` regex. -/
def isFnChar (c : Char) : Bool := (c.isLower || c.isDigit) || c == '_'

/-- The class `[:.]` (member-suffix separators). -/
def isSepChar (c : Char) : Bool := c == ':' || c == '.'

/-- The class `[\w-]` (member-suffix body). -/
def isMemberChar (c : Char) : Bool := isWordChar c || c == '-'

/-- The character class of the `TAGS` regex: word characters, `/` and `-`. -/
def isTagChar (c : Char) : Bool := isWordChar c || c == '/' || c == '-'

/-- `\b` at a position whose next character is a word character: satisfied
iff the previous character (if any) is not a word character. -/
def boundaryBefore (prev : Option Char) : Bool :=
  match prev with
  | none => true
  | some p => !isWordChar p

/-- Strip trailing `-` characters: backtracking of `[\w-]+\b` when the greedy
match ends in hyphens (a hyphen is not a word character, so the trailing word
boundary forces the engine to give hyphens back). -/
def dropTrailingHyphens (t : List Char) : List Char :=
  (t.reverse.dropWhile (· == '-')).reverse

/-! ### The six regular expressions as leftmost-first matchers

Each matcher is given the character preceding the current position (for
word-boundary tests) and the text at the current position; it returns the
captures together with the total length of the match (always ≥ 1). -/

/-- Captures of the `SYMBOL` / `PARAM_SYMBOL` regexes
`([#%])(\w+\b)([:.]+[\w-]+\b)?` and `([@])(\w+\b)([:.]+[\w-]+\b)?`:
the sigil, the identifier body, and the optional member suffix. -/
structure SymbolCaps where
  sigil : Char
  body : List Char
  suffix : Option (List Char)
  deriving Repr, DecidableEq

/-- Matcher for `([#%])(\w+\b)([:.]+[\w-]+\b)?` (and, with another sigil set,
`PARAM_SYMBOL`).  The identifier is the maximal `\w+` run (the trailing `\b`
is then automatic); the optional suffix is a maximal `[:.]+` run followed by a
maximal `[\w-]+` run with trailing hyphens given back for the final `\b`. -/
def symbolMatch (sigils : List Char) (_prev : Option Char) (cs : List Char) :
    Option (SymbolCaps × Nat) :=
  match cs with
  | [] => none
  | c :: rest =>
    if c ∈ sigils then
      let w := rest.takeWhile isWordChar
      if w.isEmpty then none
      else
        let rest2 := rest.dropWhile isWordChar
        let seps := rest2.takeWhile isSepChar
        let t := (rest2.dropWhile isSepChar).takeWhile isMemberChar
        let t' := dropTrailingHyphens t
        if seps.isEmpty || t'.isEmpty then
          some (⟨c, w, none⟩, 1 + w.length)
        else
          some (⟨c, w, some (seps ++ t')⟩, 1 + w.length + seps.length + t'.length)
    else none

/-- Group 3 of the `FUNCTION` regex together with the literal parenthesis
pair: a maximal `[a-z0-9_]+` run starting at a word boundary and immediately
followed by `()`.  Returns the captured identifier and the consumed length. -/
def fnGroup3 (p : Option Char) (l : List Char) : Option (List Char × Nat) :=
  let t := l.takeWhile isFnChar
  if t.isEmpty || !boundaryBefore p then none
  else
    match l.drop t.length with
    | '(' :: ')' :: _ => some (t, t.length + 2)
    | _ => none

/-- The `FUNCTION` matcher after the optional sigil: try group 2 present
(a maximal `\w+` run, a maximal `[:.]+` run, then group 3), and on failure
group 2 absent (group 3 directly, at a word boundary w.r.t. `prevAfterSig`). -/
def functionMatchCore (prevAfterSig : Option Char) (sigLen : Nat) (afterSig : List Char) :
    Option (List Char × Nat) :=
  let w := afterSig.takeWhile isWordChar
  let rest2 := afterSig.dropWhile isWordChar
  let seps := rest2.takeWhile isSepChar
  let withG2 : Option (List Char × Nat) :=
    if w.isEmpty || seps.isEmpty then none
    else
      match fnGroup3 seps.getLast? (rest2.dropWhile isSepChar) with
      | some (t, n) => some (t, sigLen + w.length + seps.length + n)
      | none => none
  match withG2 with
  | some r => some r
  | none =>
    match fnGroup3 prevAfterSig afterSig with
    | some (t, n) => some (t, sigLen + n)
    | none => none

/-- Matcher for `FUNCTION`: `([@#%])?(\w+\b[:.]+)?(\b[a-z0-9_]+)\(\)`.
Only capture 3 (the function identifier) is used by the replacement.  The
optional group 2 is a maximal `\w+` run followed by a maximal `[:.]+` run;
group 3 is a maximal `[a-z0-9_]+` run that must be followed by the literal
`()` and, when groups 1 and 2 are absent, must start at a word boundary. -/
def functionMatch (prev : Option Char) (cs : List Char) : Option (List Char × Nat) :=
  match cs with
  | c :: rest =>
    if c ∈ ['@', '#', '%'] then functionMatchCore (some c) 1 rest
    else functionMatchCore prev 0 cs
  | [] => functionMatchCore prev 0 []

/-- The body of a `GDK_GTK` match after the opening backtick and the optional
leading character: a well-known library name (`Gdk`/`Gtk`/`Gsk`/`Pango`), at
least one more word character (maximal run), an optional `.`, and the closing
backtick; returns capture 2 and the consumed length including that backtick. -/
def gdkCore (l : List Char) : Option (List Char × Nat) :=
  let lib : Option (List Char × List Char) :=
    match l with
    | 'G' :: x :: 'k' :: rest =>
      if x ∈ ['d', 't', 's'] then some (['G', x, 'k'], rest) else none
    | 'P' :: 'a' :: 'n' :: 'g' :: 'o' :: rest => some (['P', 'a', 'n', 'g', 'o'], rest)
    | _ => none
  match lib with
  | none => none
  | some (pre, rest) =>
    let w := rest.takeWhile isWordChar
    if w.isEmpty then none
    else
      match rest.drop w.length with
      | '.' :: d :: _ =>
        -- greedy `(\.)?`: taking the dot requires the closing backtick next;
        -- giving it back would require the backtick at the dot itself, which
        -- is impossible, so the dot-present case is the only candidate here
        if d == btick then some (pre ++ w, pre.length + w.length + 2) else none
      | d :: _ =>
        if d == btick then some (pre ++ w, pre.length + w.length + 1) else none
      | [] => none

/-- Matcher for `GDK_GTK`: a backtick, an optional single character other
than `(` and `:` (preferred present), then the `gdkCore` body.  Returns
capture 2. -/
def gdkGtkMatch (_prev : Option Char) (cs : List Char) : Option (List Char × Nat) :=
  match cs with
  | [] => none
  | c :: rest =>
    if c == btick then
      match rest with
      | c1 :: rest1 =>
        if c1 ≠ '(' && c1 ≠ ':' then
          match gdkCore rest1 with
          | some (caps, n) => some (caps, n + 2)
          | none =>
            match gdkCore rest with
            | some (caps, n) => some (caps, n + 1)
            | none => none
        else
          match gdkCore rest with
          | some (caps, n) => some (caps, n + 1)
          | none => none
      | [] => none
    else none

/-- Matcher for `TAGS`: an angle-bracketed run of at least one tag character
(word characters, `/` and `-`); returns the whole match (`$0`). -/
def tagsMatch (_prev : Option Char) (cs : List Char) : Option (List Char × Nat) :=
  match cs with
  | '<' :: rest =>
    let run := rest.takeWhile isTagChar
    if run.isEmpty then none
    else
      match rest.drop run.length with
      | '>' :: _ => some ('<' :: run ++ ['>'], run.length + 2)
      | _ => none
  | _ => none

/-- Matcher for `SPACES`: `[ ]{2,}` — a maximal run of at least two spaces. -/
def spacesMatch (_prev : Option Char) (cs : List Char) : Option (Unit × Nat) :=
  match cs with
  | ' ' :: ' ' :: _ => some ((), (cs.takeWhile (· == ' ')).length)
  | _ => none

/-- `Regex::replace_all` with a replacement closure that may also emit
diagnostics: scan left to right, at each position try the matcher, emit the
replacement and resume after the match on success, otherwise keep the
character.  The previous character (for `\b`) is tracked from the original
text.  Fuel is the input length; every match consumes at least one character
(`max n 1`), so the fuel never runs out when initialised to the length. -/
def replaceAllAux (m : Option Char → List Char → Option (α × Nat))
    (f : α → List Char × List Diag) :
    Nat → Option Char → List Char → List Char × List Diag
  | 0, _, rest => (rest, [])
  | _ + 1, _, [] => ([], [])
  | fuel + 1, prev, c :: cs =>
    match m prev (c :: cs) with
    | some (a, n) =>
      let len := max n 1
      let (r, d) := f a
      let (r2, d2) := replaceAllAux m f fuel ((c :: cs).take len).getLast? ((c :: cs).drop len)
      (r ++ r2, d ++ d2)
    | none =>
      let (r2, d2) := replaceAllAux m f fuel (some c) cs
      (c :: r2, d2)

/-- Entry point of `replace_all` over a whole text. -/
def replaceAll (m : Option Char → List Char → Option (α × Nat))
    (f : α → List Char × List Diag) (cs : List Char) : List Char × List Diag :=
  replaceAllAux m f cs.length none cs

/-! ### The Symbol Resolver (source lines 120–299) -/

/-- `IGNORED_C_TYPES` (source lines 198–205). -/
def ignoredCTypes : List String :=
  ["gconstpointer", "guint16", "guint", "gunicode", "gchararray", "GList"]

/-- `IGNORE_C_WARNING_FUNCS` (source lines 258–265). -/
def ignoreCWarningFuncs : List String :=
  ["g_object_unref", "g_object_ref", "g_free", "g_list_free", "g_strfreev", "printf"]

/-- `find_constant_or_variant` (source lines 152–195): search every flag
type's members, then every enum type's members — both by C-level member
identifier, skipping ignored members — then the global constants by C-level
name; render a member hit as `` [`Owner::Member`][crate::Owner::Member] ``
and a constant hit as `` [`Name`][crate::Name] ``; warn when nothing is
found. -/
def findConstantOrVariant (env : Env) (symbol : String) : Option String × List Diag :=
  match env.flags.findSome? (fun f =>
      (f.members.find? (fun m => m.c_identifier == symbol && !m.ignored)).map (fun m => (f, m))) with
  | some (flagInfo, memberInfo) =>
    let p := (env.byTid flagInfo.type_id).getD ""
    let m := bitfieldMemberName memberInfo.name
    (some ("[`" ++ p ++ "::" ++ m ++ "`][crate::" ++ p ++ "::" ++ m ++ "]"), [])
  | none =>
    match env.enumerations.findSome? (fun e =>
        (e.members.find? (fun m => m.c_identifier == symbol && !m.ignored)).map (fun m => (e, m))) with
    | some (enumInfo, memberInfo) =>
      let p := (env.byTid enumInfo.type_id).getD ""
      let m := enumMemberName memberInfo.name
      (some ("[`" ++ p ++ "::" ++ m ++ "`][crate::" ++ p ++ "::" ++ m ++ "]"), [])
    | none =>
      match env.constants.find? (fun c => c.glib_name == symbol) with
      | some constInfo =>
        (some ("[`" ++ constInfo.name ++ "`][crate::" ++ constInfo.name ++ "]"), [])
      | none => (none, [Diag.warnConstNotFound symbol])

/-- `find_type` (source lines 206–253): names on the ignore-list resolve to
nothing at once (no diagnostic, no table search); otherwise objects, records,
enumerations and flags are searched in that order by C-level type name.  A
symbol hit renders as `` [`N`][crate::N] ``; when the whole chain misses (with
a warning) or the symbol table has no entry, the name is retried as a
constant or variant, flagging the classification mismatch on success. -/
def findType (env : Env) (t : String) : Option String × List Diag :=
  if t ∈ ignoredCTypes then (none, [])
  else
    let symWarn : Option String × List Diag :=
      match env.objects.find? (fun o => o.c_type == t) with
      | some obj => (env.byTid obj.type_id, [])
      | none =>
        match env.records.find? (fun r => r.c_type == t) with
        | some record => (env.byTid record.type_id, [])
        | none =>
          match env.enumerations.find? (fun e => e.c_type == t) with
          | some e => (env.byTid e.type_id, [])
          | none =>
            match env.flags.find? (fun f => f.c_type == t) with
            | some f => (env.byTid f.type_id, [])
            | none => (none, [Diag.warnTypeNotFound t])
    match symWarn with
    | (some sym, d) => (some ("[`" ++ sym ++ "`][crate::" ++ sym ++ "]"), d)
    | (none, d) =>
      match findConstantOrVariant env t with
      | (some i, d2) => (some i, d ++ d2 ++ [Diag.warnClassMismatch t])
      | (none, d2) => (none, d ++ d2)

/-- `find_method_or_type` (source lines 120–150): with a method name, search
objects by full name then records by C type name for a method of that name
(warning when both miss); without one, delegate to `find_type`. -/
def findMethodOrType (env : Env) (t : String) (methodName : Option String) :
    Option String × List Diag :=
  match methodName with
  | some method =>
    match findObjectByFunction env (fun o => o.full_name == t) (fun f => f.name == method) with
    | some (objInfo, fnInfo) =>
      let sym := (env.byTid objInfo.type_id).getD ""
      let (typeName, visibleTypeName) := generateDocLinkInfo objInfo fnInfo
      let name := replaceStr sym objInfo.name typeName
      (some (fnInfo.docLink (some name) (some visibleTypeName)), [])
    | none =>
      match findRecordByFunction env (fun r => r.c_type == t) (fun f => f.name == method) with
      | some (recordInfo, fnInfo) =>
        let symName := (env.byTid recordInfo.type_id).getD ""
        (some (fnInfo.docLink (some symName) none), [])
      | none => (none, [Diag.warnMethodNotFound method t])
  | none => findType env t

/-- `find_function` (source lines 266–299): search object methods, then
record methods, then global functions, all by C-level identifier
(`glib_name`); the object hit rewrites the receiver's name to the declaring
type's name in the link; a complete miss warns unless the identifier is on
the `IGNORE_C_WARNING_FUNCS` allow-list. -/
def findFunction (env : Env) (name : String) : Option String × List Diag :=
  match findObjectByFunction env (fun _ => true) (fun f => f.glib_name == name) with
  | some (objInfo, fnInfo) =>
    let sym := (env.byTid objInfo.type_id).getD ""
    let (typeName, visibleTypeName) := generateDocLinkInfo objInfo fnInfo
    let name' := replaceStr sym objInfo.name typeName
    (some (fnInfo.docLink (some name') (some visibleTypeName)), [])
  | none =>
    match findRecordByFunction env (fun _ => true) (fun f => f.glib_name == name) with
    | some (recordInfo, fnInfo) =>
      let symName := (env.byTid recordInfo.type_id).getD ""
      (some (fnInfo.docLink (some symName) none), [])
    | none =>
      match findGlobalFunction env (fun f => f.glib_name == name) with
      | some fnInfo => (some (fnInfo.docLink none none), [])
      | none =>
        (none, if name ∈ ignoreCWarningFuncs then [] else [Diag.warnFnNotFound name])

/-! ### The Inline Token Scanner (source lines 59–118) -/

/-- Replacement closure of the `FUNCTION` pass (source lines 84–90): the
resolved link, or the bare identifier in backticks with an informational
diagnostic. -/
def functionReplace (env : Env) (caps3 : List Char) : List Char × List Diag :=
  let name : String := ⟨caps3⟩
  match findFunction env name with
  | (some s, d) => (s.data, d)
  | (none, d) =>
    ((btick :: caps3 ++ [btick]), d ++ [Diag.infoFnFallback name])

/-- Replacement closure of the `SYMBOL` pass (source lines 92–112): the
literals `TRUE` / `FALSE` / `NULL` map to fixed links before any index
lookup; a `%` sigil resolves as constant or variant, a `#` sigil as method or
type (with the suffix stripped of leading dots); an unresolved symbol falls
back to inline code with an informational diagnostic. -/
def symbolReplace (env : Env) (caps : SymbolCaps) : List Char × List Diag :=
  let symbolName : String := ⟨caps.body⟩
  if symbolName == "TRUE" then ("[`true`]".data, [])
  else if symbolName == "FALSE" then ("[`false`]".data, [])
  else if symbolName == "NULL" then ("[`None`]".data, [])
  else
    let r : Option String × List Diag :=
      if caps.sigil == '%' then findConstantOrVariant env symbolName
      else
        let methodName : Option String := caps.suffix.map (fun s => ⟨s.dropWhile (· == '.')⟩)
        findMethodOrType env symbolName methodName
    match r with
    | (some s, d) => (s.data, d)
    | (none, d) =>
      (btick :: caps.body ++ [btick], d ++ [Diag.infoSymbolNotFound symbolName])

/-- Replacement closure of the `GDK_GTK` pass (source lines 113–115). -/
def gdkGtkReplace (env : Env) (caps2 : List Char) : List Char × List Diag :=
  match findType env ⟨caps2⟩ with
  | (some s, d) => (s.data, d)
  | (none, d) => (btick :: caps2 ++ [btick], d)

/-- `replace_c_types` (source lines 83–118): the `FUNCTION`, `SYMBOL`,
`GDK_GTK`, `TAGS` and `SPACES` passes in that order, threading the
diagnostics of the first three. -/
def replaceCTypes (env : Env) (entry : List Char) : List Char × List Diag :=
  let (o1, d1) := replaceAll functionMatch (functionReplace env) entry
  let (o2, d2) := replaceAll (symbolMatch ['#', '%']) (symbolReplace env) o1
  let (o3, d3) := replaceAll gdkGtkMatch (gdkGtkReplace env) o2
  let (o4, _) := replaceAll tagsMatch (fun whole => (btick :: whole ++ [btick], [])) o3
  let (o5, _) := replaceAll spacesMatch (fun _ => ([' '], [])) o4
  (o5, d1 ++ d2 ++ d3)

/-- Modelled from the spec: `gi_docgen::replace_c_types` (module
`codegen/doc/gi_docgen.rs`, not part of this source file).  It rewrites only
gi-docgen's own bracketed link tokens, which carry an `@` inside square
brackets; all of the spec's §4.2 token grammars are handled in this file, so
on text without such bracketed tokens the pass returns its input unchanged.
It is modelled as the identity. -/
def giDocgenReplaceCTypes (_env : Env) (s : List Char) : List Char := s

/-- `format` (source lines 59–68): `replace_c_types`, then the gi-docgen
pass, then the `PARAM_SYMBOL` pass replacing `@name` (with optional member
suffix) by `` `name` ``. -/
def formatD (env : Env) (input : List Char) : List Char × List Diag :=
  let (o1, d1) := replaceCTypes env input
  let o2 := giDocgenReplaceCTypes env o1
  let (o3, _) := replaceAll (symbolMatch ['@'])
    (fun caps => (btick :: caps.body ++ [btick], [])) o2
  (o3, d1)

/-! ### The Code Block Normalizer (source lines 7–57) -/

/-- `LANGUAGE_SEP_BEGIN` -/
def languageSepBegin : List Char := "<!-- language=\"".data
/-- `LANGUAGE_SEP_END` -/
def languageSepEnd : List Char := "\" -->".data
/-- `LANGUAGE_BLOCK_BEGIN` -/
def languageBlockBegin : List Char := "|[".data
/-- `LANGUAGE_BLOCK_END` -/
def languageBlockEnd : List Char := "\n]|".data

/-- `get_language` (source lines 48–57), with the text pushed onto `out`
returned as the first component: when the language markers are found the
fence header carries the declared language and the text after the marker is
returned; otherwise the header is ```` ```text ```` and the entry is returned
unchanged. -/
def getLanguage (entry : List Char) : List Char × List Char :=
  match trySplit entry languageSepBegin with
  | (_, some after) =>
    match trySplit after languageSepEnd with
    | (before, some after2) => ("\n```".data ++ before, after2)
    | (_, none) => ("\n```text".data, entry)
  | (_, none) => ("\n```text".data, entry)

/-- `code_blocks_transformation` (source lines 23–46): repeatedly split at
the block-open marker; prose before it is formatted, the fence header is
emitted by `get_language`, and when the block-close marker is found the block
body is emitted untouched followed by a closing fence.  When the close marker
is missing the loop continues on the text following the open marker (the
fence stays, no closing fence is synthesized).  The fuel is the input length;
each iteration consumes at least the open marker, so the fuel suffices, and
an exhausted-fuel step coincides with the marker-free base case. -/
def codeBlocksAux (env : Env) : Nat → List Char → List Char × List Diag
  | 0, input => formatD env input
  | fuel + 1, input =>
    match trySplit input languageBlockBegin with
    | (before, some after) =>
      let fb := formatD env before
      let fence := getLanguage after
      match trySplit fence.2 languageBlockEnd with
      | (body, some after2) =>
        let r := codeBlocksAux env fuel after2
        (fb.1 ++ fence.1 ++ body ++ "\n```".data ++ r.1, fb.2 ++ r.2)
      | (_, none) =>
        let r := codeBlocksAux env fuel after
        (fb.1 ++ fence.1 ++ r.1, fb.2 ++ r.2)
    | (before, none) => formatD env before

/-- `code_blocks_transformation`, fuel initialised to the input length. -/
def codeBlocksTransformation (env : Env) (input : List Char) : List Char × List Diag :=
  codeBlocksAux env input.length input

/-- `reformat_doc` (source lines 12–14), over `String`, dropping diagnostics. -/
def reformatDoc (env : Env) (input : String) : String :=
  ⟨(codeBlocksTransformation env input.data).1⟩

/-- `reformat_doc` together with the emitted diagnostics. -/
def reformatDocD (env : Env) (input : String) : String × List Diag :=
  let r := codeBlocksTransformation env input.data
  (⟨r.1⟩, r.2)

/-- Count of the non-overlapping occurrences of a (non-empty) pattern in a
text, scanning left to right; used to state the absence of a closing fence. -/
def countSubAux (pat : List Char) : Nat → List Char → Nat
  | 0, _ => 0
  | _ + 1, [] => 0
  | fuel + 1, c :: cs =>
    if pat ≠ [] ∧ pat.isPrefixOf (c :: cs) then
      1 + countSubAux pat fuel ((c :: cs).drop pat.length)
    else
      countSubAux pat fuel cs

/-- Occurrence count over a `String`. -/
def countSub (pat s : String) : Nat := countSubAux pat.data s.data.length s.data

/-- The space-collapsing pass as the spec describes it: every character is
kept, except that a space immediately followed by another space is dropped —
i.e. runs of two or more spaces collapse to a single one. -/
def collapseSpacesSpec : List Char → List Char
  | [] => []
  | [c] => [c]
  | c :: c' :: cs =>
    if c == ' ' && c' == ' ' then collapseSpacesSpec (c' :: cs)
    else c :: collapseSpacesSpec (c' :: cs)

/-- Specification-side resolver for `%`-sigil symbols, following §4.3
`resolve_constant_or_member` of the spec word for word: search, in order,
every flag type's members, then every enum type's members — matched by
C-level member identifier, excluding members marked ignored — then the global
constants by C-level name; the first hit wins and a member hit is rendered as
`OwnerName::MemberName`; no hit is unresolved with a warning. -/
def resolveConstantOrMemberSpec (env : Env) (s : String) : Option String × List Diag :=
  let flagHits := ((env.flags.flatMap fun f => f.members.map fun m => (f, m)).filter
    fun fm => fm.2.c_identifier == s && !fm.2.ignored)
  let enumHits := ((env.enumerations.flatMap fun e => e.members.map fun m => (e, m)).filter
    fun em => em.2.c_identifier == s && !em.2.ignored)
  match flagHits.head? with
  | some (f, m) =>
    let p := (env.byTid f.type_id).getD ""
    let n := bitfieldMemberName m.name
    (some ("[`" ++ p ++ "::" ++ n ++ "`][crate::" ++ p ++ "::" ++ n ++ "]"), [])
  | none =>
    match enumHits.head? with
    | some (e, m) =>
      let p := (env.byTid e.type_id).getD ""
      let n := enumMemberName m.name
      (some ("[`" ++ p ++ "::" ++ n ++ "`][crate::" ++ p ++ "::" ++ n ++ "]"), [])
    | none =>
      match env.constants.find? (fun c => c.glib_name == s) with
      | some c => (some ("[`" ++ c.name ++ "`][crate::" ++ c.name ++ "]"), [])
      | none => (none, [Diag.warnConstNotFound s])

/-! ### Concrete Symbol Indexes used by scenarios and witnesses -/

/-- An index whose sole object carries the method `gtk_widget_show`, declared
on the distinct ancestor type `Widget`; a record and a global function with
the same C identifier are present to exhibit the search priority. -/
def objEnv : Env :=
  { objects := [⟨"Button", "Gtk.Button", "GtkButton", 1,
      [⟨"show", "gtk_widget_show", some "Widget"⟩]⟩],
    records := [⟨"Rec", "Gtk.Rec", "GtkRec", 2, [⟨"show2", "gtk_widget_show", none⟩]⟩],
    enumerations := [],
    flags := [],
    constants := [],
    globalFunctions := [⟨"show3", "gtk_widget_show", none⟩],
    symbols := [(1, "gtk::Button"), (2, "gtk::Rec")] }

/-- An index where the member identifier `MY_FLAG_ONE` occurs first as an
ignored flag member, then as a live flag member, and also as an enum member
and as a global constant — exercising the exclusion of ignored members and
the flag → enum → constant priority. -/
def flagEnv : Env :=
  { objects := [],
    records := [],
    enumerations := [⟨"MyEnum", 7, [⟨"EnumOne", "MY_FLAG_ONE", false⟩]⟩],
    flags := [⟨"CIgnoredFlags", 4, [⟨"MyFlagOne", "MY_FLAG_ONE", true⟩]⟩,
              ⟨"CMyFlags", 5, [⟨"MyFlagOne", "MY_FLAG_ONE", false⟩]⟩],
    constants := [⟨"MY_FLAG_ONE", "FLAG_ONE"⟩],
    globalFunctions := [],
    symbols := [(4, "IgnoredFlags"), (5, "OwnerFlags"), (7, "MyEnum")] }

/-- An index that contains an object whose C type name is `gchararray`, a
name on the ignore-list. -/
def gchararrayEnv : Env :=
  { objects := [⟨"CharArray", "G.CharArray", "gchararray", 9, []⟩],
    records := [],
    enumerations := [],
    flags := [],
    constants := [],
    globalFunctions := [],
    symbols := [(9, "glib::CharArray")] }

/-! ### Lemmas about `trySplit` -/

lemma eq_append_drop_of_isPrefixOf :
    ∀ {n s : List Char}, n.isPrefixOf s → s = n ++ s.drop n.length := by
  intro n
  induction n with
  | nil => intro s _; simp
  | cons a n ih =>
    intro s h
    cases s with
    | nil => simp [List.isPrefixOf] at h
    | cons b s' =>
      simp only [List.isPrefixOf, Bool.and_eq_true, beq_iff_eq] at h
      obtain ⟨rfl, h2⟩ := h
      simpa using ih h2

lemma trySplit_none_eq : ∀ (s n b : List Char), trySplit s n = (b, none) → b = s := by
  intro s n
  induction s with
  | nil =>
    intro b h
    unfold trySplit at h
    split at h
    · simp at h
    · simp only [Prod.mk.injEq] at h
      exact h.1.symm
  | cons c cs ih =>
    intro b h
    unfold trySplit at h
    split at h
    · simp at h
    · rcases htr : trySplit cs n with ⟨b', o⟩
      cases o with
      | some a => simp only [htr] at h; simp at h
      | none =>
        simp only [htr, Prod.mk.injEq] at h
        exact h.1.symm

lemma trySplit_some_eq :
    ∀ (s n b a : List Char), trySplit s n = (b, some a) → s = b ++ n ++ a := by
  intro s n
  induction s with
  | nil =>
    intro b a h
    unfold trySplit at h
    split at h
    · next hp =>
      cases n with
      | nil =>
        simp only [Prod.mk.injEq, Option.some.injEq] at h
        obtain ⟨h1, h2⟩ := h
        simp [← h1, ← h2]
      | cons x xs => simp [List.isPrefixOf] at hp
    · simp at h
  | cons c cs ih =>
    intro b a h
    unfold trySplit at h
    split at h
    · next hp =>
      simp only [Prod.mk.injEq, Option.some.injEq] at h
      obtain ⟨h1, h2⟩ := h
      subst h1
      rw [← h2]
      simpa using eq_append_drop_of_isPrefixOf hp
    · rcases htr : trySplit cs n with ⟨b', o⟩
      cases o with
      | some a' =>
        simp only [htr, Prod.mk.injEq, Option.some.injEq] at h
        obtain ⟨h1, h2⟩ := h
        have h3 := ih b' a' htr
        subst h1
        rw [← h2, h3]
        simp
      | none => simp only [htr] at h; simp at h

lemma trySplit_some_length {s n b a : List Char} (h : trySplit s n = (b, some a)) :
    s.length = b.length + n.length + a.length := by
  have h2 := trySplit_some_eq s n b a h
  subst h2
  simp
  omega

lemma trySplit_eq_self_of_head_not_mem
    (s : List Char) (c : Char) (n' : List Char) (h : c ∉ s) :
    trySplit s (c :: n') = (s, none) := by
  induction s with
  | nil => simp [trySplit, List.isPrefixOf]
  | cons d cs ih =>
    have hcd : c ≠ d := fun hc => h (hc ▸ List.mem_cons_self d cs)
    have hcs : c ∉ cs := fun hc => h (List.mem_cons_of_mem d hc)
    unfold trySplit
    split
    · next hp =>
      simp only [List.isPrefixOf, Bool.and_eq_true, beq_iff_eq] at hp
      exact absurd hp.1 hcd
    · simp [ih hcs]

/-! ### First-match lemmas for `find?` and `findSome?` -/

lemma findSome?_append_cons {α β : Type} (g : α → Option β) (l1 l2 : List α) (x : α) (y : β)
    (h1 : ∀ a ∈ l1, g a = none) (hx : g x = some y) :
    (l1 ++ x :: l2).findSome? g = some y := by
  induction l1 with
  | nil => simp [List.findSome?_cons, hx]
  | cons a l ih =>
    have ha := h1 a (List.mem_cons_self a l)
    simp only [List.cons_append, List.findSome?_cons, ha]
    exact ih (fun b hb => h1 b (List.mem_cons_of_mem a hb))

lemma find?_append_cons {α : Type} (p : α → Bool) (l1 l2 : List α) (x : α)
    (h1 : ∀ a ∈ l1, p a = false) (hx : p x = true) :
    (l1 ++ x :: l2).find? p = some x := by
  induction l1 with
  | nil => simp [List.find?_cons, hx]
  | cons a l ih =>
    have ha := h1 a (List.mem_cons_self a l)
    simp only [List.cons_append, List.find?_cons, ha]
    exact ih (fun b hb => h1 b (List.mem_cons_of_mem a hb))

/-! ### Passes that find nothing leave the text unchanged -/

lemma replaceAllAux_eq_self {α : Type} (m : Option Char → List Char → Option (α × Nat))
    (f : α → List Char × List Diag) :
    ∀ (cs : List Char) (fuel : Nat) (prev : Option Char), cs.length ≤ fuel →
      (∀ (p : Option Char) (c : Char) (cs' : List Char), (c :: cs') <:+ cs → m p (c :: cs') = none) →
      replaceAllAux m f fuel prev cs = (cs, []) := by
  intro cs
  induction cs with
  | nil => intro fuel prev _ _; cases fuel <;> simp [replaceAllAux]
  | cons c cs ih =>
    intro fuel prev h H
    cases fuel with
    | zero => simp at h
    | succ fuel =>
      have hm := H prev c cs (List.suffix_refl _)
      simp only [replaceAllAux, hm]
      rw [ih fuel (some c) (by simpa using h)
        (fun p c' cs' hs => H p c' cs' (hs.trans (List.suffix_cons c cs)))]

lemma fnGroup3_none_of_no_paren (p : Option Char) (l : List Char) (h : '(' ∉ l) :
    fnGroup3 p l = none := by
  simp only [fnGroup3]
  split
  · rfl
  · split
    · next heq =>
      exfalso
      apply h
      have hmem : '(' ∈ l.drop (l.takeWhile isFnChar).length := by
        rw [heq]; exact List.mem_cons_self _ _
      exact (List.drop_suffix _ _).subset hmem
    · rfl

lemma functionMatchCore_none_of_no_paren (p : Option Char) (n : Nat) (l : List Char)
    (h : '(' ∉ l) : functionMatchCore p n l = none := by
  have h2 : '(' ∉ l.dropWhile isWordChar :=
    fun hm => h ((List.dropWhile_suffix _).subset hm)
  have h3 : '(' ∉ (l.dropWhile isWordChar).dropWhile isSepChar :=
    fun hm => h2 ((List.dropWhile_suffix _).subset hm)
  simp only [functionMatchCore]
  rw [fnGroup3_none_of_no_paren _ _ h3, fnGroup3_none_of_no_paren _ _ h]
  split
  · next heq => exfalso; revert heq; split <;> simp
  · rfl

lemma functionMatch_none_of_no_paren (prev : Option Char) (l : List Char) (h : '(' ∉ l) :
    functionMatch prev l = none := by
  cases l with
  | nil => exact functionMatchCore_none_of_no_paren prev 0 [] (by simp)
  | cons c rest =>
    have hr : '(' ∉ rest := fun hm => h (List.mem_cons_of_mem c hm)
    simp only [functionMatch]
    split
    · exact functionMatchCore_none_of_no_paren _ _ _ hr
    · exact functionMatchCore_none_of_no_paren _ _ _ h

lemma symbolMatch_none_of_head_not_mem (sigils : List Char) (prev : Option Char)
    (c : Char) (cs : List Char) (h : c ∉ sigils) :
    symbolMatch sigils prev (c :: cs) = none := by
  simp [symbolMatch, h]

lemma gdkGtkMatch_none_of_head (prev : Option Char) (c : Char) (cs : List Char)
    (h : c ≠ btick) : gdkGtkMatch prev (c :: cs) = none := by
  simp [gdkGtkMatch, h]

lemma tagsMatch_none_of_head (prev : Option Char) (c : Char) (cs : List Char)
    (h : c ≠ '<') : tagsMatch prev (c :: cs) = none := by
  unfold tagsMatch
  split
  · next heq => injection heq with h1 _; exact absurd h1 h
  · rfl

lemma spacesMatch_none_of_head (prev : Option Char) (c : Char) (cs : List Char)
    (h : c ≠ ' ') : spacesMatch prev (c :: cs) = none := by
  unfold spacesMatch
  split
  · next heq => injection heq with h1 _; exact absurd h1 h
  · rfl

lemma replaceAll_eq_self_of {α : Type}
    (m : Option Char → List Char → Option (α × Nat)) (f : α → List Char × List Diag)
    (cs : List Char)
    (H : ∀ (p : Option Char) (c : Char) (cs' : List Char), (c :: cs') <:+ cs →
      m p (c :: cs') = none) :
    replaceAll m f cs = (cs, []) :=
  replaceAllAux_eq_self m f cs cs.length none (Nat.le_refl _) H

lemma functionPass_id (env : Env) (cs : List Char) (h : '(' ∉ cs) :
    replaceAll functionMatch (functionReplace env) cs = (cs, []) :=
  replaceAll_eq_self_of _ _ cs fun p c cs' hs =>
    functionMatch_none_of_no_paren p (c :: cs') (fun hm => h (hs.subset hm))

lemma symbolPass_id (sigils : List Char) (f : SymbolCaps → List Char × List Diag)
    (cs : List Char) (h : ∀ c ∈ cs, c ∉ sigils) :
    replaceAll (symbolMatch sigils) f cs = (cs, []) :=
  replaceAll_eq_self_of _ _ cs fun p c cs' hs =>
    symbolMatch_none_of_head_not_mem sigils p c cs'
      (h c (hs.subset (List.mem_cons_self c cs')))

lemma gdkPass_id (f : List Char → List Char × List Diag) (cs : List Char)
    (h : btick ∉ cs) :
    replaceAll gdkGtkMatch f cs = (cs, []) :=
  replaceAll_eq_self_of _ _ cs fun p c cs' hs =>
    gdkGtkMatch_none_of_head p c cs'
      (fun hc => h (hc ▸ hs.subset (List.mem_cons_self c cs')))

lemma tagsPass_id (f : List Char → List Char × List Diag) (cs : List Char)
    (h : '<' ∉ cs) :
    replaceAll tagsMatch f cs = (cs, []) :=
  replaceAll_eq_self_of _ _ cs fun p c cs' hs =>
    tagsMatch_none_of_head p c cs'
      (fun hc => h (hc ▸ hs.subset (List.mem_cons_self c cs')))

lemma spacesPass_id (f : Unit → List Char × List Diag) (cs : List Char)
    (h : ' ' ∉ cs) :
    replaceAll spacesMatch f cs = (cs, []) :=
  replaceAll_eq_self_of _ _ cs fun p c cs' hs =>
    spacesMatch_none_of_head p c cs'
      (fun hc => h (hc ▸ hs.subset (List.mem_cons_self c cs')))

/-! ### Lemmas about the Code Block Normalizer -/

lemma getLanguage_of_no_marker (e : List Char)
    (h : (trySplit e languageSepBegin).2 = none) :
    getLanguage e = ("\n```text".data, e) := by
  unfold getLanguage
  rcases htr : trySplit e languageSepBegin with ⟨b, o⟩
  replace h : o = none := by rw [htr] at h; exact h
  subst h
  simp [htr]

lemma getLanguage_fence_starts (e : List Char) :
    ∃ t, (getLanguage e).1 = "\n```".data ++ t := by
  unfold getLanguage
  rcases htr : trySplit e languageSepBegin with ⟨b, o⟩
  cases o with
  | some after =>
    rcases htr2 : trySplit after languageSepEnd with ⟨b2, o2⟩
    cases o2 with
    | some a2 => exact ⟨b2, by simp [htr, htr2]⟩
    | none => exact ⟨"text".data, by simp [htr, htr2]⟩
  | none => exact ⟨"text".data, by simp [htr]⟩

lemma codeBlocksAux_of_none (env : Env) (input : List Char) (fuel : Nat)
    (h : (trySplit input languageBlockBegin).2 = none) :
    codeBlocksAux env fuel input = formatD env input := by
  cases fuel with
  | zero => rfl
  | succ f =>
    rcases htr : trySplit input languageBlockBegin with ⟨b, o⟩
    replace h : o = none := by rw [htr] at h; exact h
    subst h
    have hb : b = input := trySplit_none_eq _ _ _ htr
    subst hb
    simp [codeBlocksAux, htr]

/-! ### The `SPACES` pass is exactly space-run collapsing -/

lemma drop_takeWhile_length (p : Char → Bool) (l : List Char) :
    l.drop (l.takeWhile p).length = l.dropWhile p := by
  induction l with
  | nil => rfl
  | cons c cs ih =>
    by_cases h : p c <;> simp [List.takeWhile_cons, List.dropWhile_cons, h, ih]

lemma head_dropWhile_false (p : Char → Bool) (l : List Char) (c : Char)
    (h : (l.dropWhile p).head? = some c) : p c = false := by
  induction l with
  | nil => simp at h
  | cons d ds ih =>
    by_cases hd : p d
    · rw [List.dropWhile_cons, if_pos hd] at h
      exact ih h
    · rw [List.dropWhile_cons, if_neg hd] at h
      simp at h
      subst h
      exact Bool.eq_false_iff.mpr hd

lemma collapse_replicate_space (k : Nat) (rest : List Char)
    (h : rest.head? ≠ some ' ') :
    collapseSpacesSpec (List.replicate (k + 1) ' ' ++ rest) =
      ' ' :: collapseSpacesSpec rest := by
  induction k with
  | zero =>
    cases rest with
    | nil => rfl
    | cons c rs =>
      have hc : c ≠ ' ' := fun hc' => h (by simp [hc'])
      have hb : (' ' == ' ' && c == ' ') = false := by simp [hc]
      simp [List.replicate, collapseSpacesSpec, hb, hc]
  | succ k ih =>
    have : List.replicate (k + 2) ' ' ++ rest = ' ' :: ' ' :: (List.replicate k ' ' ++ rest) := by
      simp [List.replicate_succ]
    rw [this]
    have h2 : ' ' :: (List.replicate k ' ' ++ rest) = List.replicate (k + 1) ' ' ++ rest := by
      simp [List.replicate_succ]
    calc collapseSpacesSpec (' ' :: ' ' :: (List.replicate k ' ' ++ rest))
        = collapseSpacesSpec (' ' :: (List.replicate k ' ' ++ rest)) := by
          simp [collapseSpacesSpec]
      _ = ' ' :: collapseSpacesSpec rest := by rw [h2]; exact ih

lemma spacesMatch_none_of_second (prev : Option Char) (c' : Char) (cs : List Char)
    (h : c' ≠ ' ') : spacesMatch prev (' ' :: c' :: cs) = none := by
  unfold spacesMatch
  split
  · next heq =>
    injection heq with _ h2
    injection h2 with h3 _
    exact absurd h3 h
  · rfl

lemma replaceAllAux_nil {α : Type} (m : Option Char → List Char → Option (α × Nat))
    (f : α → List Char × List Diag) (fuel : Nat) (prev : Option Char) :
    replaceAllAux m f fuel prev [] = ([], []) := by
  cases fuel <;> rfl

lemma replaceAllAux_spaces :
    ∀ (fuel : Nat) (s : List Char) (prev : Option Char), s.length ≤ fuel →
      replaceAllAux spacesMatch (fun _ => ([' '], [])) fuel prev s =
        (collapseSpacesSpec s, []) := by
  intro fuel
  induction fuel with
  | zero =>
    intro s prev h
    have : s = [] := by cases s <;> simp_all
    subst this
    rfl
  | succ fuel ih =>
    intro s prev h
    cases s with
    | nil => exact replaceAllAux_nil _ _ _ _
    | cons c cs =>
      cases cs with
      | nil =>
        by_cases hc : c = ' '
        · subst hc
          simp only [replaceAllAux, spacesMatch, replaceAllAux_nil]
          rfl
        · rw [replaceAllAux, spacesMatch_none_of_head prev c [] hc, replaceAllAux_nil]
          rfl
      | cons c' cs' =>
        by_cases h1 : c = ' ' ∧ c' = ' '
        · obtain ⟨rfl, rfl⟩ := h1
          have hmatch : spacesMatch prev (' ' :: ' ' :: cs') =
              some ((), ((' ' :: ' ' :: cs').takeWhile (· == ' ')).length) := by
            simp [spacesMatch]
          set s := ' ' :: ' ' :: cs' with hs
          have hrunlen : 2 ≤ (s.takeWhile (· == ' ')).length := by
            rw [hs]; simp [List.takeWhile_cons]
          have hmax : max (s.takeWhile (· == ' ')).length 1 = (s.takeWhile (· == ' ')).length := by
            omega
          rw [replaceAllAux, hmatch]
          simp only [hmax]
          rw [drop_takeWhile_length]
          have hlen : (s.dropWhile (· == ' ')).length ≤ fuel := by
            have h3 : s.length = cs'.length + 2 := by rw [hs]; simp
            have h4 : (s.dropWhile (· == ' ')).length + (s.takeWhile (· == ' ')).length = s.length := by
              have h5 := congrArg List.length
                (List.takeWhile_append_dropWhile (p := (· == ' ')) (l := s))
              simp only [List.length_append] at h5
              omega
            omega
          rw [ih (s.dropWhile (· == ' ')) _ hlen]
          -- right-hand side: collapse of the run
          have hrun : s.takeWhile (· == ' ') =
              List.replicate (s.takeWhile (· == ' ')).length ' ' :=
            List.eq_replicate_of_mem (fun b hb => by
              have := List.mem_takeWhile_imp hb
              simpa using this)
          have hhead : (s.dropWhile (· == ' ')).head? ≠ some ' ' := by
            intro hh
            have := head_dropWhile_false (· == ' ') s ' ' hh
            simp at this
          have hsplit : s = List.replicate (s.takeWhile (· == ' ')).length ' ' ++
              s.dropWhile (· == ' ') := by
            conv_lhs => rw [← List.takeWhile_append_dropWhile (p := (· == ' ')) (l := s)]
            rw [← hrun]
          obtain ⟨k, hk⟩ : ∃ k, (s.takeWhile (· == ' ')).length = k + 1 := by
            refine ⟨(s.takeWhile (· == ' ')).length - 1, ?_⟩; omega
          rw [show collapseSpacesSpec s = ' ' :: collapseSpacesSpec (s.dropWhile (· == ' ')) from by
            conv_lhs => rw [hsplit]
            rw [hk]
            exact collapse_replicate_space k _ hhead]
          rfl
        · have hnone : spacesMatch prev (c :: c' :: cs') = none := by
            by_cases hc : c = ' '
            · subst hc
              have hc' : c' ≠ ' ' := fun h2 => h1 ⟨rfl, h2⟩
              exact spacesMatch_none_of_second prev c' cs' hc'
            · exact spacesMatch_none_of_head prev c _ hc
          rw [replaceAllAux, hnone]
          rw [ih (c' :: cs') (some c) (by simpa using h)]
          have hb : (c == ' ' && c' == ' ') = false := by
            rcases not_and_or.mp h1 with h2 | h2 <;> simp [h2]
          simp [collapseSpacesSpec, hb]

lemma spacesPass_eq_collapse (cs : List Char) :
    replaceAll spacesMatch (fun _ => ([' '], [])) cs = (collapseSpacesSpec cs, []) :=
  replaceAllAux_spaces cs.length cs none (Nat.le_refl _)

/-! ### Idempotence of space collapsing -/

/-- No two adjacent spaces anywhere in the text. -/
def noDoubleSpace : List Char → Bool
  | [] => true
  | [_] => true
  | c :: c' :: cs => !(c == ' ' && c' == ' ') && noDoubleSpace (c' :: cs)

lemma head?_collapse : ∀ l : List Char, (collapseSpacesSpec l).head? = l.head?
  | [] => rfl
  | [_] => rfl
  | c :: c' :: cs => by
    by_cases h : c = ' ' ∧ c' = ' '
    · obtain ⟨rfl, rfl⟩ := h
      rw [show collapseSpacesSpec (' ' :: ' ' :: cs) = collapseSpacesSpec (' ' :: cs) from by
        simp [collapseSpacesSpec]]
      rw [head?_collapse (' ' :: cs)]
      rfl
    · have hb : (c == ' ' && c' == ' ') = false := by
        rcases not_and_or.mp h with h2 | h2 <;> simp [h2]
      simp [collapseSpacesSpec, hb]

lemma collapse_noDouble : ∀ l : List Char, noDoubleSpace (collapseSpacesSpec l) = true
  | [] => rfl
  | [_] => rfl
  | c :: c' :: cs => by
    by_cases h : c = ' ' ∧ c' = ' '
    · obtain ⟨rfl, rfl⟩ := h
      rw [show collapseSpacesSpec (' ' :: ' ' :: cs) = collapseSpacesSpec (' ' :: cs) from by
        simp [collapseSpacesSpec]]
      exact collapse_noDouble (' ' :: cs)
    · have hb : (c == ' ' && c' == ' ') = false := by
        rcases not_and_or.mp h with h2 | h2 <;> simp [h2]
      rw [show collapseSpacesSpec (c :: c' :: cs) = c :: collapseSpacesSpec (c' :: cs) from by
        simp [collapseSpacesSpec, hb]]
      rcases hcol : collapseSpacesSpec (c' :: cs) with _ | ⟨x, xs⟩
      · rfl
      · have hx : x = c' := by
          have h3 := head?_collapse (c' :: cs)
          rw [hcol] at h3
          simpa using h3
        have h2 := collapse_noDouble (c' :: cs)
        rw [hcol] at h2
        simp only [noDoubleSpace, Bool.and_eq_true]
        refine ⟨?_, h2⟩
        rw [hx]
        simp [hb]

lemma collapse_eq_self_of_noDouble :
    ∀ l : List Char, noDoubleSpace l = true → collapseSpacesSpec l = l
  | [], _ => rfl
  | [_], _ => rfl
  | c :: c' :: cs, h => by
    simp only [noDoubleSpace, Bool.and_eq_true, Bool.not_eq_true'] at h
    obtain ⟨hb, h2⟩ := h
    rw [show collapseSpacesSpec (c :: c' :: cs) = c :: collapseSpacesSpec (c' :: cs) from by
      simp [collapseSpacesSpec, hb]]
    rw [collapse_eq_self_of_noDouble (c' :: cs) h2]

lemma collapse_idem (l : List Char) :
    collapseSpacesSpec (collapseSpacesSpec l) = collapseSpacesSpec l :=
  collapse_eq_self_of_noDouble _ (collapse_noDouble l)

lemma mem_of_mem_collapse : ∀ (l : List Char) (c : Char), c ∈ collapseSpacesSpec l → c ∈ l
  | [], _, h => h
  | [_], _, h => h
  | c :: c' :: cs, x, h => by
    by_cases hg : c = ' ' ∧ c' = ' '
    · obtain ⟨rfl, rfl⟩ := hg
      rw [show collapseSpacesSpec (' ' :: ' ' :: cs) = collapseSpacesSpec (' ' :: cs) from by
        simp [collapseSpacesSpec]] at h
      exact List.mem_cons_of_mem _ (mem_of_mem_collapse (' ' :: cs) x h)
    · have hb : (c == ' ' && c' == ' ') = false := by
        rcases not_and_or.mp hg with h2 | h2 <;> simp [h2]
      rw [show collapseSpacesSpec (c :: c' :: cs) = c :: collapseSpacesSpec (c' :: cs) from by
        simp [collapseSpacesSpec, hb]] at h
      rcases List.mem_cons.mp h with h2 | h2
      · exact h2 ▸ List.mem_cons_self _ _
      · exact List.mem_cons_of_mem _ (mem_of_mem_collapse (c' :: cs) x h2)

/-! ## Claim theorems -/

/-- C6: for every `%`-sigil token whose body is exactly `TRUE`, `FALSE` or
`NULL`, the output contains the corresponding fixed link (`` [`true`] ``,
`` [`false`] ``, `` [`None`] ``) regardless of the contents of the Symbol
Index: the translation of a text holding all three tokens is the same for
every index. -/
theorem literal_true_false_null_fixed_links :
    ∀ env : Env,
      reformatDoc env "%TRUE x %FALSE y %NULL" = "[`true`] x [`false`] y [`None`]" :=
  fun _ => rfl

/-- C7: a `#`-sigil token whose body is on the fixed ignore-list of
non-introspectable C types resolves to nothing — `find_type` answers
unresolved with no diagnostic before searching any table (the result is the
same for every Symbol Index, even one holding a same-named entry) — and the
token is rendered as inert inline code, never a link. -/
theorem ignore_list_type_never_linked (env : Env) (t : String)
    (h : t ∈ ignoredCTypes) :
    findType env t = (none, []) ∧
      reformatDocD env "#gchararray" = ("`gchararray`", [Diag.infoSymbolNotFound "gchararray"]) := by
  constructor
  · simp [findType, h]
  · rfl

/-- C7 witness: on an index that does contain an object whose C type name is
`gchararray`, the ignore-listed name still resolves to nothing and renders as
inert code. -/
theorem ignore_list_type_never_linked_witness :
    findType gchararrayEnv "gchararray" = (none, []) ∧
      reformatDocD gchararrayEnv "#gchararray" =
        ("`gchararray`", [Diag.infoSymbolNotFound "gchararray"]) :=
  ignore_list_type_never_linked gchararrayEnv "gchararray" (by decide)

/-- C4, counterexample: on the exact input of the claim,
`|[<!-- language="c" --> int x = 0; ]|` (no newline before `]|`), the
translation emits the `c`-tagged opening fence but no closing fence — the
block-close marker is `"\n]|"`, which does not occur here — so the output
carries exactly one fence and even re-emits the language marker text. -/
theorem fence_scenario_counterexample :
    reformatDoc emptyEnv "|[<!-- language=\"c\" --> int x = 0; ]|"
        = "\n```c<!-- language=\"c\" --> int x = 0; ]|" ∧
      countSub "```" (reformatDoc emptyEnv "|[<!-- language=\"c\" --> int x = 0; ]|") = 1 := by
  exact ⟨rfl, rfl⟩

/-- C4, amended (the block-close marker is `"\n]|"`, so the scenario needs a
newline before `]|`): for every Symbol Index, a block opened by `|[` whose
language marker declares `c` yields an opening fence tagged `c`, the literal
code unchanged and a closing fence; with no language marker the opening
fence is tagged `text`. -/
theorem fence_language_tags :
    ∀ env : Env,
      reformatDoc env "|[<!-- language=\"c\" -->\nint x = 0;\n]|" = "\n```c\nint x = 0;\n```" ∧
        reformatDoc env "|[\nint x = 0;\n]|" = "\n```text\nint x = 0;\n```" :=
  fun _ => ⟨rfl, rfl⟩

/-- C1, counterexample: the body of a fenced block is NOT passed through the
Inline Token Scanner — `%TRUE` inside a block survives verbatim, although the
scanner itself (`format`) would substitute it in prose. -/
theorem block_content_not_scanned_counterexample :
    reformatDocD emptyEnv "|[\n%TRUE\n]|" = ("\n```text\n%TRUE\n```", []) ∧
      (formatD emptyEnv "\n%TRUE\n".data).1 = "\n[`true`]\n".data := by
  exact ⟨rfl, rfl⟩

/-- C1, amended: the content between the block-open and block-close markers
is emitted verbatim — it is NOT passed through the Inline Token Scanner;
only the prose before the block and after it goes through `format`.  Stated
for a single `text`-tagged block: the body appears in the output unchanged,
between the fences, while `pre` and `post` are formatted. -/
theorem block_body_emitted_verbatim (env : Env) (pre body post : List Char)
    (hA : trySplit (pre ++ languageBlockBegin ++ body ++ languageBlockEnd ++ post)
        languageBlockBegin = (pre, some (body ++ languageBlockEnd ++ post)))
    (hB : (trySplit (body ++ languageBlockEnd ++ post) languageSepBegin).2 = none)
    (hC : trySplit (body ++ languageBlockEnd ++ post) languageBlockEnd = (body, some post))
    (hD : (trySplit post languageBlockBegin).2 = none) :
    codeBlocksTransformation env (pre ++ languageBlockBegin ++ body ++ languageBlockEnd ++ post)
      = ((formatD env pre).1 ++ "\n```text".data ++ body ++ "\n```".data ++ (formatD env post).1,
         (formatD env pre).2 ++ (formatD env post).2) := by
  unfold codeBlocksTransformation
  obtain ⟨f, hf⟩ : ∃ f, (pre ++ languageBlockBegin ++ body ++ languageBlockEnd ++ post).length
      = f + 1 := by
    refine ⟨(pre ++ languageBlockBegin ++ body ++ languageBlockEnd ++ post).length - 1, ?_⟩
    have : 0 < (pre ++ languageBlockBegin ++ body ++ languageBlockEnd ++ post).length := by
      simp [languageBlockBegin]
    omega
  rw [hf]
  simp only [codeBlocksAux]
  rw [hA]
  simp only
  rw [getLanguage_of_no_marker _ hB]
  simp only
  rw [hC]
  simp only
  rw [codeBlocksAux_of_none env post f hD]

/-- C1 amended witness at a concrete input: the `%TRUE` inside the block is
kept verbatim while the surrounding prose is formatted. -/
theorem block_body_emitted_verbatim_witness :
    codeBlocksTransformation emptyEnv
        ("see: ".data ++ languageBlockBegin ++ "%TRUE".data ++ languageBlockEnd ++ " done".data)
      = ((formatD emptyEnv "see: ".data).1 ++ "\n```text".data ++ "%TRUE".data ++ "\n```".data
          ++ (formatD emptyEnv " done".data).1,
         (formatD emptyEnv "see: ".data).2 ++ (formatD emptyEnv " done".data).2) :=
  block_body_emitted_verbatim emptyEnv "see: ".data "%TRUE".data " done".data rfl rfl rfl rfl

/-- C5: an input whose block-open marker has no matching block-close marker
before the end still produces a result: the prose before the marker is
formatted, the opening fence is emitted, the remaining text is processed as
prose, and no closing fence is appended for that block; the emitted fence
header always starts with the fence characters. -/
theorem unterminated_block_keeps_opening_fence (env : Env) (pre rest : List Char)
    (hA : trySplit (pre ++ languageBlockBegin ++ rest) languageBlockBegin = (pre, some rest))
    (hB : (trySplit (getLanguage rest).2 languageBlockEnd).2 = none)
    (hC : (trySplit rest languageBlockBegin).2 = none) :
    codeBlocksTransformation env (pre ++ languageBlockBegin ++ rest)
        = ((formatD env pre).1 ++ (getLanguage rest).1 ++ (formatD env rest).1,
           (formatD env pre).2 ++ (formatD env rest).2)
      ∧ ∃ t, (getLanguage rest).1 = "\n```".data ++ t := by
  refine ⟨?_, getLanguage_fence_starts rest⟩
  unfold codeBlocksTransformation
  obtain ⟨f, hf⟩ : ∃ f, (pre ++ languageBlockBegin ++ rest).length = f + 1 := by
    refine ⟨(pre ++ languageBlockBegin ++ rest).length - 1, ?_⟩
    have : 0 < (pre ++ languageBlockBegin ++ rest).length := by
      simp [languageBlockBegin]
    omega
  rw [hf]
  simp only [codeBlocksAux]
  rw [hA]
  simp only
  rcases htr2 : trySplit (getLanguage rest).2 languageBlockEnd with ⟨b2, o2⟩
  replace hB : o2 = none := by rw [htr2] at hB; exact hB
  subst hB
  simp only
  rw [codeBlocksAux_of_none env rest f hC]

/-- C5 witness: a concrete unterminated block. -/
theorem unterminated_block_keeps_opening_fence_witness :
    codeBlocksTransformation emptyEnv ("p ".data ++ languageBlockBegin ++ "code here".data)
        = ((formatD emptyEnv "p ".data).1 ++ (getLanguage "code here".data).1
            ++ (formatD emptyEnv "code here".data).1,
           (formatD emptyEnv "p ".data).2 ++ (formatD emptyEnv "code here".data).2)
      ∧ ∃ t, (getLanguage "code here".data).1 = "\n```".data ++ t :=
  unterminated_block_keeps_opening_fence emptyEnv "p ".data "code here".data rfl rfl rfl

lemma findSome_member_eq_head_filter (l : List EnumFlagInfo) (p : Member → Bool) :
    (l.findSome? fun f => (f.members.find? p).map fun m => (f, m))
      = ((l.flatMap fun f => f.members.map fun m => (f, m)).filter fun fm => p fm.2).head? := by
  induction l with
  | nil => rfl
  | cons f fs ih =>
    have inner : ∀ (ms : List Member),
        ((ms.map fun m => (f, m)).filter fun fm => p fm.2).head?
          = (ms.find? p).map fun m => (f, m) := by
      intro ms
      induction ms with
      | nil => rfl
      | cons m ms ihm =>
        by_cases hm : p m
        · simp [List.find?_cons, hm]
        · simp [List.find?_cons, hm, ihm]
    simp only [List.findSome?_cons, List.flatMap_cons, List.filter_append]
    cases hfind : f.members.find? p with
    | some m =>
      have h1 := inner f.members
      rw [hfind] at h1
      rcases hl : (f.members.map fun m => (f, m)).filter (fun fm => p fm.2) with _ | ⟨x, xs⟩
      · rw [hl] at h1; simp at h1
      · rw [hl] at h1
        simp only [List.head?_cons, Option.map_some, Option.some.injEq] at h1
        simp [hl, h1]
    | none =>
      have h1 := inner f.members
      rw [hfind] at h1
      have hl : (f.members.map fun m => (f, m)).filter (fun fm => p fm.2) = [] := by
        rcases hl2 : (f.members.map fun m => (f, m)).filter (fun fm => p fm.2) with _ | ⟨x, xs⟩
        · exact hl2
        · rw [hl2] at h1; simp at h1
      simp [hl, ih]

/-- C3: `find_constant_or_variant` implements the spec's
`resolve_constant_or_member` exactly — flag members first, then enum members
(both keyed by C-level member identifier, skipping ignored members), then
global constants; the first hit is rendered under its owner as
`OwnerName::MemberName`, and a miss is unresolved with a warning.  Moreover
the spec's Scenario C holds on an index where `MY_FLAG_ONE` is also carried
by an ignored flag member, an enum member and a constant. -/
theorem find_constant_or_variant_meets_spec :
    (∀ (env : Env) (s : String),
      findConstantOrVariant env s = resolveConstantOrMemberSpec env s)
    ∧ reformatDoc flagEnv "%MY_FLAG_ONE is set"
        = "[`OwnerFlags::MyFlagOne`][crate::OwnerFlags::MyFlagOne] is set" := by
  constructor
  · intro env s
    simp only [findConstantOrVariant, resolveConstantOrMemberSpec,
      findSome_member_eq_head_filter]
    rfl
  · rfl

lemma findObjectByFunction_first (env : Env) (name : String)
    (pre post : List TypeInfo) (o : TypeInfo) (fpre fpost : List FnInfo) (f : FnInfo)
    (hobj : env.objects = pre ++ o :: post)
    (hpre : ∀ o' ∈ pre, ∀ g ∈ o'.functions, g.glib_name ≠ name)
    (hfn : o.functions = fpre ++ f :: fpost)
    (hfpre : ∀ g ∈ fpre, g.glib_name ≠ name)
    (hkey : f.glib_name = name) :
    findObjectByFunction env (fun _ => true) (fun g => g.glib_name == name) = some (o, f) := by
  unfold findObjectByFunction
  rw [hobj]
  simp only [if_true]
  apply findSome?_append_cons _ _ _ o (o, f)
  · intro o' ho'
    simp only [Option.map_eq_none']
    exact List.find?_eq_none.mpr (fun g hg => by simp [hpre o' ho' g hg])
  · rw [hfn, find?_append_cons _ _ _ f (fun g hg => by simp [hfpre g hg]) (by simp [hkey])]
    rfl

lemma findObjectByFunction_none (env : Env) (name : String)
    (h : ∀ o ∈ env.objects, ∀ g ∈ o.functions, g.glib_name ≠ name) :
    findObjectByFunction env (fun _ => true) (fun g => g.glib_name == name) = none := by
  unfold findObjectByFunction
  rw [List.findSome?_eq_none_iff]
  intro o ho
  simp only [if_true, Option.map_eq_none']
  exact List.find?_eq_none.mpr (fun g hg => by simp [h o ho g hg])

lemma findRecordByFunction_first (env : Env) (name : String)
    (pre post : List TypeInfo) (r : TypeInfo) (fpre fpost : List FnInfo) (f : FnInfo)
    (hrec : env.records = pre ++ r :: post)
    (hpre : ∀ r' ∈ pre, ∀ g ∈ r'.functions, g.glib_name ≠ name)
    (hfn : r.functions = fpre ++ f :: fpost)
    (hfpre : ∀ g ∈ fpre, g.glib_name ≠ name)
    (hkey : f.glib_name = name) :
    findRecordByFunction env (fun _ => true) (fun g => g.glib_name == name) = some (r, f) := by
  unfold findRecordByFunction
  rw [hrec]
  simp only [if_true]
  apply findSome?_append_cons _ _ _ r (r, f)
  · intro r' hr'
    simp only [Option.map_eq_none']
    exact List.find?_eq_none.mpr (fun g hg => by simp [hpre r' hr' g hg])
  · rw [hfn, find?_append_cons _ _ _ f (fun g hg => by simp [hfpre g hg]) (by simp [hkey])]
    rfl

lemma findRecordByFunction_none (env : Env) (name : String)
    (h : ∀ r ∈ env.records, ∀ g ∈ r.functions, g.glib_name ≠ name) :
    findRecordByFunction env (fun _ => true) (fun g => g.glib_name == name) = none := by
  unfold findRecordByFunction
  rw [List.findSome?_eq_none_iff]
  intro r hr
  simp only [if_true, Option.map_eq_none']
  exact List.find?_eq_none.mpr (fun g hg => by simp [h r hr g hg])

/-- C2: `find_function` searches object methods first, then record methods,
then global functions, each keyed by the C-level identifier `glib_name`,
committing to the first match: (1) the first matching object wins with no
condition at all on the record or global tables, and its link rewrites the
receiver's name to the declaring type `d` (interface/ancestor dispatch);
(2) when no object matches, the first matching record wins with no condition
on globals; (3) when neither matches, the first matching global function is
used. -/
theorem find_function_search_order (env : Env) (name : String) :
    (∀ (pre post : List TypeInfo) (o : TypeInfo) (fpre fpost : List FnInfo) (f : FnInfo)
        (d full : String),
      env.objects = pre ++ o :: post →
      (∀ o' ∈ pre, ∀ g ∈ o'.functions, g.glib_name ≠ name) →
      o.functions = fpre ++ f :: fpost →
      (∀ g ∈ fpre, g.glib_name ≠ name) →
      f.glib_name = name →
      env.byTid o.type_id = some full →
      f.declaring = some d →
      findFunction env name = (some (f.docLink (some (replaceStr full o.name d)) (some d)), []))
    ∧ ((∀ o ∈ env.objects, ∀ g ∈ o.functions, g.glib_name ≠ name) →
      ∀ (pre post : List TypeInfo) (r : TypeInfo) (fpre fpost : List FnInfo) (f : FnInfo)
        (full : String),
      env.records = pre ++ r :: post →
      (∀ r' ∈ pre, ∀ g ∈ r'.functions, g.glib_name ≠ name) →
      r.functions = fpre ++ f :: fpost →
      (∀ g ∈ fpre, g.glib_name ≠ name) →
      f.glib_name = name →
      env.byTid r.type_id = some full →
      findFunction env name = (some (f.docLink (some full) none), []))
    ∧ ((∀ o ∈ env.objects, ∀ g ∈ o.functions, g.glib_name ≠ name) →
      (∀ r ∈ env.records, ∀ g ∈ r.functions, g.glib_name ≠ name) →
      ∀ (gpre gpost : List FnInfo) (f : FnInfo),
      env.globalFunctions = gpre ++ f :: gpost →
      (∀ g ∈ gpre, g.glib_name ≠ name) →
      f.glib_name = name →
      findFunction env name = (some (f.docLink none none), [])) := by
  refine ⟨?_, ?_, ?_⟩
  · intro pre post o fpre fpost f d full hobj hpre hfn hfpre hkey hsym hdecl
    unfold findFunction
    rw [findObjectByFunction_first env name pre post o fpre fpost f hobj hpre hfn hfpre hkey]
    simp [hsym, hdecl, generateDocLinkInfo]
  · intro hno pre post r fpre fpost f full hrec hpre hfn hfpre hkey hsym
    unfold findFunction
    rw [findObjectByFunction_none env name hno]
    rw [findRecordByFunction_first env name pre post r fpre fpost f hrec hpre hfn hfpre hkey]
    simp [hsym]
  · intro hno hnr gpre gpost f hglob hgpre hkey
    unfold findFunction
    rw [findObjectByFunction_none env name hno, findRecordByFunction_none env name hnr]
    unfold findGlobalFunction
    rw [hglob, find?_append_cons _ _ _ f (fun g hg => by simp [hgpre g hg]) (by simp [hkey])]

/-- C2 witness: on `objEnv` — where the record table and the global table
also carry `gtk_widget_show` — the object hit wins, and the link names the
declaring type `Widget`, not the receiver `Button`. -/
theorem find_function_search_order_witness :
    findFunction objEnv "gtk_widget_show"
      = (some "[`Widget::show`][crate::gtk::Widget::show]", []) := by
  have h := (find_function_search_order objEnv "gtk_widget_show").1
    [] [] ⟨"Button", "Gtk.Button", "GtkButton", 1, [⟨"show", "gtk_widget_show", some "Widget"⟩]⟩
    [] [] ⟨"show", "gtk_widget_show", some "Widget"⟩ "Widget" "gtk::Button"
    rfl (by simp) rfl (by simp) rfl rfl rfl
  exact h

/-- The character preceding the scanner's position after consuming `t`,
starting from previous character `prev`. -/
def lastOr (t : List Char) (prev : Option Char) : Option Char :=
  match t.getLast? with
  | some x => some x
  | none => prev

lemma lastOr_nil (prev : Option Char) : lastOr [] prev = prev := rfl

lemma lastOr_cons (c : Char) (t : List Char) (prev : Option Char) :
    lastOr t (some c) = lastOr (c :: t) prev := by
  cases t with
  | nil => rfl
  | cons d ds =>
    unfold lastOr
    rw [List.getLast?_cons_cons]
    rcases h : (d :: ds).getLast? with _ | x
    · simp at h
    · rfl

lemma replaceAllAux_no_match_through {α : Type}
    (m : Option Char → List Char → Option (α × Nat)) (f : α → List Char × List Diag) :
    ∀ (a b : List Char) (fuel : Nat) (prev : Option Char),
      a.length + b.length ≤ fuel →
      (∀ (t s : List Char), t ++ s = a ++ b → b.length < s.length →
        m (lastOr t prev) s = none) →
      replaceAllAux m f fuel prev (a ++ b)
        = (a ++ (replaceAllAux m f (fuel - a.length) (lastOr a prev) b).1,
           (replaceAllAux m f (fuel - a.length) (lastOr a prev) b).2) := by
  intro a
  induction a with
  | nil => intro b fuel prev _ _; simp [lastOr_nil]
  | cons c a' ih =>
    intro b fuel prev hfuel H
    cases fuel with
    | zero => simp at hfuel
    | succ fu =>
      have hm : m prev (c :: (a' ++ b)) = none := by
        have h0 := H [] (c :: (a' ++ b)) (by simp)
          (by simp only [List.length_cons, List.length_append]; omega)
        simpa [lastOr_nil] using h0
      have key : replaceAllAux m f (fu + 1) prev ((c :: a') ++ b)
          = (c :: (replaceAllAux m f fu (some c) (a' ++ b)).1,
             (replaceAllAux m f fu (some c) (a' ++ b)).2) := by
        rw [List.cons_append]
        simp only [replaceAllAux, hm]
      rw [key]
      have hfuel2 : a'.length + b.length ≤ fu := by
        simp only [List.length_cons] at hfuel
        omega
      rw [ih b fu (some c) hfuel2
        (fun t s ht hlen => by
          have h1 := H (c :: t) s (by simp [ht]) hlen
          rwa [← lastOr_cons] at h1)]
      have harith : fu + 1 - (c :: a').length = fu - a'.length := by
        simp only [List.length_cons]
        omega
      rw [harith, lastOr_cons c a' prev]
      simp

lemma replaceAllAux_match_head {α : Type}
    (m : Option Char → List Char → Option (α × Nat)) (f : α → List Char × List Diag)
    (c : Char) (cs : List Char) (fuel : Nat) (prev : Option Char) (caps : α) (n : Nat)
    (hm : m prev (c :: cs) = some (caps, n)) (hn : 1 ≤ n) :
    replaceAllAux m f (fuel + 1) prev (c :: cs)
      = ((f caps).1 ++ (replaceAllAux m f fuel ((c :: cs).take n).getLast? ((c :: cs).drop n)).1,
         (f caps).2 ++ (replaceAllAux m f fuel ((c :: cs).take n).getLast? ((c :: cs).drop n)).2) := by
  simp only [replaceAllAux, hm]
  rw [Nat.max_eq_left hn]

lemma eq_take_drop_of_append {t s l : List Char} (h : t ++ s = l) :
    t = l.take t.length ∧ s = l.drop t.length := by
  constructor
  · rw [← h, List.take_left]
  · rw [← h, List.drop_left]

lemma gdkCore_none_of_no_GP (l : List Char) (hG : 'G' ∉ l) (hP : 'P' ∉ l) :
    gdkCore l = none := by
  unfold gdkCore
  split
  · exact absurd (List.mem_cons_self _ _) hG
  · exact absurd (List.mem_cons_self _ _) hP
  · rfl

lemma gdkGtkMatch_none_of_no_GP (prev : Option Char) (l : List Char)
    (hG : 'G' ∉ l) (hP : 'P' ∉ l) : gdkGtkMatch prev l = none := by
  cases l with
  | nil => rfl
  | cons c cs =>
    have hGr : 'G' ∉ cs := fun h => hG (List.mem_cons_of_mem c h)
    have hPr : 'P' ∉ cs := fun h => hP (List.mem_cons_of_mem c h)
    simp only [gdkGtkMatch]
    by_cases hb : c == btick
    · rw [if_pos hb]
      cases cs with
      | nil => rfl
      | cons c1 rest1 =>
        have hG1 : 'G' ∉ rest1 := fun h => hGr (List.mem_cons_of_mem c1 h)
        have hP1 : 'P' ∉ rest1 := fun h => hPr (List.mem_cons_of_mem c1 h)
        simp only [gdkCore_none_of_no_GP rest1 hG1 hP1,
          gdkCore_none_of_no_GP (c1 :: rest1) hGr hPr]
        split <;> rfl
    · rw [if_neg hb]

lemma gdkPass_id_of_no_GP (f : List Char → List Char × List Diag) (cs : List Char)
    (hG : 'G' ∉ cs) (hP : 'P' ∉ cs) :
    replaceAll gdkGtkMatch f cs = (cs, []) :=
  replaceAll_eq_self_of _ _ cs fun p c cs' hs =>
    gdkGtkMatch_none_of_no_GP p (c :: cs')
      (fun hm => hG (hs.subset hm)) (fun hm => hP (hs.subset hm))

lemma findFunction_none_of_absent (env : Env) (name : String)
    (h1 : ∀ o ∈ env.objects, ∀ g ∈ o.functions, g.glib_name ≠ name)
    (h2 : ∀ r ∈ env.records, ∀ g ∈ r.functions, g.glib_name ≠ name)
    (h3 : ∀ g ∈ env.globalFunctions, g.glib_name ≠ name) :
    findFunction env name
      = (none, if name ∈ ignoreCWarningFuncs then [] else [Diag.warnFnNotFound name]) := by
  unfold findFunction
  rw [findObjectByFunction_none env name h1, findRecordByFunction_none env name h2]
  unfold findGlobalFunction
  rw [List.find?_eq_none.mpr (fun g hg => by simp [h3 g hg])]

lemma function_scan_call_g_free (f : List Char → List Char × List Diag)
    (hrep : f "g_free".data = ("`g_free`".data, [Diag.infoFnFallback "g_free"])) :
    replaceAll functionMatch f "call g_free()".data
      = ("call `g_free`".data, [Diag.infoFnFallback "g_free"]) := by
  have hsplit : "call g_free()".data = "call ".data ++ "g_free()".data := by decide
  unfold replaceAll
  rw [hsplit]
  rw [replaceAllAux_no_match_through functionMatch f "call ".data "g_free()".data _ none
    (by decide)
    (fun t s ht hlen => by
      obtain ⟨ht2, hs2⟩ := eq_take_drop_of_append ht
      have hlt : t.length ≤ 4 := by
        have hl : t.length + s.length = 13 := by
          have h6 := congrArg List.length ht
          simpa using h6
        have hbl : ("g_free()".data).length = 8 := by decide
        rw [hbl] at hlen
        omega
      set k := t.length with hk
      rw [ht2, hs2]
      interval_cases k <;> decide)]
  have hlen5 : ("call ".data ++ "g_free()".data).length - ("call ".data).length = 7 + 1 := by
    decide
  rw [hlen5]
  have hlast : lastOr "call ".data none = some ' ' := by decide
  rw [hlast]
  rw [replaceAllAux_match_head functionMatch f 'g' "_free()".data 7 (some ' ')
    "g_free".data 8 (by decide) (by decide)]
  rw [hrep]
  have hdrop : (('g' :: "_free()".data).drop 8) = [] := by decide
  rw [hdrop, replaceAllAux_nil]
  decide

/-- C8, counterexample: for the allow-listed, absent identifier `g_free`, the
fallback renders `` `g_free` `` — the parentheses of the token are consumed by
the match and are NOT kept inside the inline-code span; the only diagnostic is
informational. -/
theorem allowlisted_function_fallback_counterexample :
    reformatDocD emptyEnv "call g_free()" = ("call `g_free`", [Diag.infoFnFallback "g_free"])
      ∧ ("call `g_free`" : String) ≠ "call `g_free()`" := by
  exact ⟨rfl, by decide⟩

/-- C8, amended (the fallback drops the parentheses: the token renders as
`` `g_free` ``, identifier only): for every Symbol Index in which `g_free`
matches no object method, no record method and no global function, the
translation renders `` call `g_free` `` and emits exactly one informational
diagnostic — no warning, since `g_free` is on `IGNORE_C_WARNING_FUNCS`. -/
theorem allowlisted_absent_function_renders_bare (env : Env)
    (h1 : ∀ o ∈ env.objects, ∀ g ∈ o.functions, g.glib_name ≠ "g_free")
    (h2 : ∀ r ∈ env.records, ∀ g ∈ r.functions, g.glib_name ≠ "g_free")
    (h3 : ∀ g ∈ env.globalFunctions, g.glib_name ≠ "g_free") :
    reformatDocD env "call g_free()" = ("call `g_free`", [Diag.infoFnFallback "g_free"]) := by
  have hf : findFunction env "g_free" = (none, []) := by
    rw [findFunction_none_of_absent env "g_free" h1 h2 h3,
      if_pos (show "g_free" ∈ ignoreCWarningFuncs by decide)]
  have hrep : functionReplace env "g_free".data
      = ("`g_free`".data, [Diag.infoFnFallback "g_free"]) := by
    simp only [functionReplace]
    rw [hf]
    decide
  have hscan := function_scan_call_g_free (functionReplace env) hrep
  simp only [reformatDocD, codeBlocksTransformation]
  rw [codeBlocksAux_of_none env _ _ (by decide)]
  simp only [formatD, replaceCTypes, hscan,
    symbolPass_id ['#', '%'] (symbolReplace env) "call `g_free`".data (by decide),
    gdkPass_id_of_no_GP (gdkGtkReplace env) "call `g_free`".data (by decide) (by decide),
    tagsPass_id (fun whole => (btick :: whole ++ [btick], [])) "call `g_free`".data (by decide),
    spacesPass_eq_collapse,
    collapse_eq_self_of_noDouble "call `g_free`".data (by decide),
    giDocgenReplaceCTypes,
    symbolPass_id ['@'] (fun caps => (btick :: caps.body ++ [btick], []))
      "call `g_free`".data (by decide)]
  decide

/-- C8 amended witness at the empty index. -/
theorem allowlisted_absent_function_renders_bare_witness :
    reformatDocD emptyEnv "call g_free()" = ("call `g_free`", [Diag.infoFnFallback "g_free"]) :=
  allowlisted_absent_function_renders_bare emptyEnv
    (by simp [emptyEnv]) (by simp [emptyEnv]) (by simp [emptyEnv])

/-! ### Character-class facts and takeWhile helpers -/

lemma isWordChar_not_sep (c : Char) (h : isWordChar c = true) : isSepChar c = false := by
  by_cases h1 : c = ':'
  · subst h1; exact absurd h (by decide)
  · by_cases h2 : c = '.'
    · subst h2; exact absurd h (by decide)
    · simp [isSepChar, h1, h2]

lemma isWordChar_ne_hyphen (c : Char) (h : isWordChar c = true) : c ≠ '-' := by
  intro h2
  subst h2
  exact absurd h (by decide)

lemma takeWhile_append_of_all (p : Char → Bool) (w : List Char) (d : Char) (r : List Char)
    (hw : ∀ c ∈ w, p c = true) (hd : p d = false) :
    (w ++ d :: r).takeWhile p = w := by
  induction w with
  | nil => simp [List.takeWhile_cons, hd]
  | cons c cs ih =>
    have hc := hw c (List.mem_cons_self c cs)
    have ih2 := ih (fun x hx => hw x (List.mem_cons_of_mem c hx))
    simp [List.takeWhile_cons, hc, ih2]

lemma dropWhile_append_of_all (p : Char → Bool) (w : List Char) (d : Char) (r : List Char)
    (hw : ∀ c ∈ w, p c = true) (hd : p d = false) :
    (w ++ d :: r).dropWhile p = d :: r := by
  induction w with
  | nil => simp [List.dropWhile_cons, hd]
  | cons c cs ih =>
    have hc := hw c (List.mem_cons_self c cs)
    have ih2 := ih (fun x hx => hw x (List.mem_cons_of_mem c hx))
    simp [List.dropWhile_cons, hc, ih2]

lemma takeWhile_eq_self_of_all (p : Char → Bool) (l : List Char)
    (h : ∀ c ∈ l, p c = true) : l.takeWhile p = l := by
  induction l with
  | nil => rfl
  | cons c cs ih =>
    have hc := h c (List.mem_cons_self c cs)
    have ih2 := ih (fun x hx => h x (List.mem_cons_of_mem c hx))
    simp [List.takeWhile_cons, hc, ih2]

lemma takeWhile_eq_nil_of_all_not (p : Char → Bool) (l : List Char)
    (h : ∀ c ∈ l, p c = false) : l.takeWhile p = [] := by
  cases l with
  | nil => rfl
  | cons c cs => simp [List.takeWhile_cons, h c (List.mem_cons_self c cs)]

lemma dropWhile_eq_self_of_head_not (p : Char → Bool) (l : List Char)
    (h : ∀ c ∈ l, p c = false) : l.dropWhile p = l := by
  cases l with
  | nil => rfl
  | cons c cs => simp [List.dropWhile_cons, h c (List.mem_cons_self c cs)]

lemma dropTrailingHyphens_eq_self (l : List Char) (h : ∀ c ∈ l, c ≠ '-') :
    dropTrailingHyphens l = l := by
  unfold dropTrailingHyphens
  rw [dropWhile_eq_self_of_head_not _ _ (fun c hc => by
    have := h c (List.mem_reverse.mp hc)
    simp [this])]
  exact List.reverse_reverse l

/-- Translation of text containing none of the trigger characters of the
token grammars or the block markers is exactly space-run collapsing. -/
lemma reformat_inert_eq_collapse (env : Env) (t : List Char)
    (ht : ∀ c ∈ t, c ∉ ['#', '%', '@', btick, '<', '(', '|']) :
    codeBlocksTransformation env t = (collapseSpacesSpec t, []) := by
  have hpipe : '|' ∉ t := fun hm => ht '|' hm (by decide)
  have hparen : '(' ∉ t := fun hm => ht '(' hm (by decide)
  have hbt : btick ∉ t := fun hm => ht btick hm (by decide)
  have hlt : '<' ∉ t := fun hm => ht '<' hm (by decide)
  have hsig : ∀ c ∈ t, c ∉ ['#', '%'] := fun c hc hm => by
    rcases List.mem_cons.mp hm with rfl | hm2
    · exact ht _ hc (by decide)
    · rcases List.mem_cons.mp hm2 with rfl | hm3
      · exact ht _ hc (by decide)
      · simp at hm3
  have hat : ∀ c ∈ collapseSpacesSpec t, c ∉ ['@'] := fun c hc hm => by
    rcases List.mem_cons.mp hm with rfl | hm2
    · exact ht _ (mem_of_mem_collapse t _ hc) (by decide)
    · simp at hm2
  unfold codeBlocksTransformation
  rw [codeBlocksAux_of_none env t _ (by
    rw [show languageBlockBegin = '|' :: ['['] from rfl,
      trySplit_eq_self_of_head_not_mem t '|' ['['] hpipe])]
  simp only [formatD, replaceCTypes,
    functionPass_id env t hparen,
    symbolPass_id ['#', '%'] (symbolReplace env) t hsig,
    gdkPass_id (gdkGtkReplace env) t hbt,
    tagsPass_id (fun whole => (btick :: whole ++ [btick], [])) t hlt,
    spacesPass_eq_collapse t,
    giDocgenReplaceCTypes,
    symbolPass_id ['@'] (fun caps => (btick :: caps.body ++ [btick], []))
      (collapseSpacesSpec t) hat]
  simp

/-- C9, counterexample: `"foo()"` contains no sigil token and no code-block
fence, yet translation does not return it unchanged (it has no space runs
either): the function-form token is consumed and rendered `` `foo` ``. -/
theorem plain_text_counterexample :
    reformatDocD emptyEnv "foo()"
        = ("`foo`", [Diag.warnFnNotFound "foo", Diag.infoFnFallback "foo"])
      ∧ ("`foo`" : String) ≠ "foo()" := by
  exact ⟨rfl, by decide⟩

/-- C9, amended (plain must also exclude function-form tokens `name()`,
angle-bracket tags, backticked library names and block markers; concretely,
none of the characters `#`, `%`, `@`, backtick, `<`, `(`, `|` may occur):
translation then only collapses space runs, and a second translation changes
nothing further. -/
theorem plain_text_space_collapse_only (env : Env) (s : String)
    (h : ∀ c ∈ s.data, c ∉ ['#', '%', '@', btick, '<', '(', '|']) :
    reformatDoc env s = ⟨collapseSpacesSpec s.data⟩ ∧
      reformatDoc env (reformatDoc env s) = reformatDoc env s := by
  have h1 : reformatDoc env s = ⟨collapseSpacesSpec s.data⟩ := by
    unfold reformatDoc
    rw [reformat_inert_eq_collapse env s.data h]
  refine ⟨h1, ?_⟩
  rw [h1]
  have h2 : ∀ c ∈ (⟨collapseSpacesSpec s.data⟩ : String).data,
      c ∉ ['#', '%', '@', btick, '<', '(', '|'] :=
    fun c hc => h c (mem_of_mem_collapse s.data c hc)
  unfold reformatDoc
  rw [reformat_inert_eq_collapse env _ h2]
  simp [collapse_idem]

/-- C9 amended witness: double spaces collapse and the result is stable. -/
theorem plain_text_space_collapse_only_witness :
    reformatDoc emptyEnv "a  b" = ⟨collapseSpacesSpec "a  b".data⟩ ∧
      reformatDoc emptyEnv (reformatDoc emptyEnv "a  b") = reformatDoc emptyEnv "a  b" :=
  plain_text_space_collapse_only emptyEnv "a  b" (by decide)

/-- C10: a parameter token `@name.member` (or with `:`): the translation
emits only the identifier wrapped in backticks — the `@` sigil and the whole
member suffix are deleted, not rendered inside the inline-code span — and no
diagnostic is emitted. -/
theorem param_token_renders_bare_identifier (env : Env) (w m : List Char) (d : Char)
    (hw : w ≠ []) (hwc : ∀ c ∈ w, isWordChar c = true)
    (hm : m ≠ []) (hmc : ∀ c ∈ m, isWordChar c = true)
    (hd : d = '.' ∨ d = ':') :
    reformatDocD env ⟨'@' :: (w ++ d :: m)⟩ = (⟨btick :: w ++ [btick]⟩, []) := by
  have hdw : isWordChar d = false := by rcases hd with rfl | rfl <;> decide
  have hds : isSepChar d = true := by rcases hd with rfl | rfl <;> decide
  have habs : ∀ x : Char, x ≠ '@' → x ≠ d → isWordChar x = false →
      x ∉ '@' :: (w ++ d :: m) := by
    intro x h1 h2 h3 hmem
    simp only [List.mem_cons, List.mem_append] at hmem
    rcases hmem with rfl | hx | rfl | hx
    · exact h1 rfl
    · rw [hwc x hx] at h3; simp at h3
    · exact h2 rfl
    · rw [hmc x hx] at h3; simp at h3
  have hparen : '(' ∉ '@' :: (w ++ d :: m) :=
    habs '(' (by decide) (by rcases hd with rfl | rfl <;> decide) (by decide)
  have hpipe : '|' ∉ '@' :: (w ++ d :: m) :=
    habs '|' (by decide) (by rcases hd with rfl | rfl <;> decide) (by decide)
  have hbt : btick ∉ '@' :: (w ++ d :: m) :=
    habs btick (by decide) (by rcases hd with rfl | rfl <;> decide) (by decide)
  have hlt : '<' ∉ '@' :: (w ++ d :: m) :=
    habs '<' (by decide) (by rcases hd with rfl | rfl <;> decide) (by decide)
  have hsp : ' ' ∉ '@' :: (w ++ d :: m) :=
    habs ' ' (by decide) (by rcases hd with rfl | rfl <;> decide) (by decide)
  have hsig : ∀ c ∈ '@' :: (w ++ d :: m), c ∉ ['#', '%'] := by
    intro c hc hmem
    rcases List.mem_cons.mp hmem with rfl | hmem2
    · exact habs '#' (by decide) (by rcases hd with rfl | rfl <;> decide) (by decide) hc
    · rcases List.mem_cons.mp hmem2 with rfl | hmem3
      · exact habs '%' (by decide) (by rcases hd with rfl | rfl <;> decide) (by decide) hc
      · simp at hmem3
  have hmatch : symbolMatch ['@'] none ('@' :: (w ++ d :: m))
      = some (⟨'@', w, some (d :: m)⟩, 1 + w.length + 1 + m.length) := by
    have h1 : (w ++ d :: m).takeWhile isWordChar = w :=
      takeWhile_append_of_all _ _ _ _ hwc hdw
    have h2 : (w ++ d :: m).dropWhile isWordChar = d :: m :=
      dropWhile_append_of_all _ _ _ _ hwc hdw
    have h3 : (d :: m).takeWhile isSepChar = [d] := by
      simp only [List.takeWhile_cons, hds, if_true]
      rw [takeWhile_eq_nil_of_all_not isSepChar m
        (fun c hc => isWordChar_not_sep c (hmc c hc))]
    have h4 : (d :: m).dropWhile isSepChar = m := by
      simp only [List.dropWhile_cons, hds, if_true]
      exact dropWhile_eq_self_of_head_not isSepChar m
        (fun c hc => isWordChar_not_sep c (hmc c hc))
    have h5 : m.takeWhile isMemberChar = m :=
      takeWhile_eq_self_of_all _ _ (fun c hc => by simp [isMemberChar, hmc c hc])
    have h6 : dropTrailingHyphens m = m :=
      dropTrailingHyphens_eq_self m (fun c hc => isWordChar_ne_hyphen c (hmc c hc))
    have hwempty : w.isEmpty = false := by
      cases w with | nil => exact absurd rfl hw | cons a as => rfl
    have hmempty : m.isEmpty = false := by
      cases m with | nil => exact absurd rfl hm | cons a as => rfl
    simp only [symbolMatch, h1, h2, h3, h4, h5, h6, hwempty, hmempty]
    simp
  simp only [reformatDocD, codeBlocksTransformation]
  rw [codeBlocksAux_of_none env _ _ (by
    rw [show languageBlockBegin = '|' :: ['['] from rfl,
      trySplit_eq_self_of_head_not_mem _ '|' ['['] hpipe])]
  simp only [formatD, replaceCTypes,
    functionPass_id env _ hparen,
    symbolPass_id ['#', '%'] (symbolReplace env) _ hsig,
    gdkPass_id (gdkGtkReplace env) _ hbt,
    tagsPass_id (fun whole => (btick :: whole ++ [btick], [])) _ hlt,
    spacesPass_id (fun _ => ([' '], [])) _ hsp,
    giDocgenReplaceCTypes]
  unfold replaceAll
  rw [show ('@' :: (w ++ d :: m)).length = (w ++ d :: m).length + 1 from by simp]
  rw [replaceAllAux_match_head (symbolMatch ['@'])
    (fun caps => (btick :: caps.body ++ [btick], [])) '@' (w ++ d :: m)
    ((w ++ d :: m).length) none ⟨'@', w, some (d :: m)⟩ (1 + w.length + 1 + m.length)
    hmatch (by omega)]
  have hdropn : ('@' :: (w ++ d :: m)).drop (1 + w.length + 1 + m.length) = [] := by
    apply List.drop_of_length_le
    simp
    omega
  rw [hdropn, replaceAllAux_nil]
  simp

/-- C10 witness: `@name.member` renders as `` `name` ``. -/
theorem param_token_renders_bare_identifier_witness :
    reformatDocD emptyEnv ⟨'@' :: ("name".data ++ '.' :: "member".data)⟩
      = (⟨btick :: "name".data ++ [btick]⟩, []) :=
  param_token_renders_bare_identifier emptyEnv "name".data "member".data '.'
    (by decide) (by decide) (by decide) (by decide) (Or.inl rfl)

end Gir
